import Mathlib

/-!
Verification of the orchestration core of the `robot` Windows-automation
repository (`src/automation-cli.js`), shallowly embedded in Lean 4.

JavaScript string-keyed objects are modeled as insertion-ordered association
lists `List (String × α)`: property assignment `o[k] = v` updates the value in
place when `k` is already bound (keeping its position) and appends otherwise;
`delete o[k]` removes the single binding; `for ... in` iterates in list order.
These match the enumeration-order semantics of JS objects with string keys.
-/

set_option autoImplicit false

namespace Robot

/-- JS `obj[k]` read: first (and, for well-formed objects, only) binding. -/
def lookup {α : Type} : List (String × α) → String → Option α
  | [], _ => none
  | (k', v) :: rest, k => if k' = k then some v else lookup rest k

/-- JS `obj[k] = v`: replace in place when bound, append otherwise. -/
def setKey {α : Type} : List (String × α) → String → α → List (String × α)
  | [], k, v => [(k, v)]
  | (k', v') :: rest, k, v =>
    if k' = k then (k, v) :: rest else (k', v') :: setKey rest k v

/-- JS `delete obj[k]`: remove the binding of `k` (keys are unique in JS objects). -/
def delKey {α : Type} : List (String × α) → String → List (String × α)
  | [], _ => []
  | (k', v') :: rest, k => if k' = k then rest else (k', v') :: delKey rest k

/-- Key occurs in the association list. -/
def hasKey {α : Type} (l : List (String × α)) (k : String) : Bool :=
  (lookup l k).isSome

/-- All keys pairwise distinct (JS objects maintain this automatically). -/
def nodupKeys {α : Type} : List (String × α) → Bool
  | [] => true
  | (k, _) :: rest => !hasKey rest k && nodupKeys rest

/-- A recorded click: screen coordinates plus optional post-click navigation
target (`automation-cli.js`, `recordClick`; spec §3 ClickRecord). -/
structure ClickRecord where
  x : Int
  y : Int
  targetContext : Option String
deriving Repr, DecidableEq

/-- A node of the context registry: `{ clicks: {...}, subcontexts: {...} }`
(`clicks.json` schema, `loadClicks`). -/
inductive ContextNode : Type where
  | node (clicks : List (String × ClickRecord))
         (subcontexts : List (String × ContextNode)) : ContextNode

/-- The clicks map of a node. -/
def ContextNode.clicks : ContextNode → List (String × ClickRecord)
  | .node c _ => c

/-- The subcontexts map of a node. -/
def ContextNode.subcontexts : ContextNode → List (String × ContextNode)
  | .node _ s => s

/-- `{ clicks: {}, subcontexts: {} }`. -/
def emptyNode : ContextNode := .node [] []

/-- Walk `obj = obj.subcontexts[seg]` along a path from a node; `none` when a
segment is missing (where the JS would read `undefined`). -/
def getNode : ContextNode → List String → Option ContextNode
  | t, [] => some t
  | t, seg :: rest =>
    match lookup t.subcontexts seg with
    | some c => getNode c rest
    | none => none

/-- `getCurrentContextObj` (automation-cli.js:116): walking the current path
creates `{clicks:{},subcontexts:{}}` for every missing segment, mutating the
stored tree. This is that mutation as a function of the whole tree. -/
def vivify : ContextNode → List String → ContextNode
  | t, [] => t
  | .node cs subs, seg :: rest =>
    match lookup subs seg with
    | some c => .node cs (setKey subs seg (vivify c rest))
    | none => .node cs (setKey subs seg (vivify emptyNode rest))

/-- Apply `f` to the node at `p` (no-op when the path does not resolve;
callers below only use it on paths that do). -/
def updateAt : ContextNode → List String → (ContextNode → ContextNode) → ContextNode
  | t, [], f => f t
  | .node cs subs, seg :: rest, f =>
    match lookup subs seg with
    | some c => .node cs (setKey subs seg (updateAt c rest f))
    | none => .node cs subs

mutual
/-- Well-formed store: within every node, the clicks map and the subcontexts
map each have pairwise-distinct keys (the JS object invariant). -/
def wf : ContextNode → Bool
  | .node cs subs => nodupKeys cs && nodupKeys subs && wfSubs subs

/-- `wf` on every child of a subcontexts map. -/
def wfSubs : List (String × ContextNode) → Bool
  | [] => true
  | (_, c) :: rest => wf c && wfSubs rest
end

/-- `makeContext` (automation-cli.js:359): empty name is rejected; then the
current node is fetched (with vivification); a subcontext of the same name is
a conflict; a click of the same name is NOT checked. On success the new empty
subcontext is added and the store saved. Result: (new store, error message). -/
def makeContext (tree : ContextNode) (p : List String) (name : String) :
    ContextNode × Option String :=
  if name = "" then (tree, some "Context name required")
  else
    let tree' := vivify tree p
    let cur := (getNode tree' p).getD emptyNode
    match lookup cur.subcontexts name with
    | some _ => (tree', some "Context already exists")
    | none =>
      (updateAt tree' p
        (fun n => .node n.clicks (setKey n.subcontexts name emptyNode)), none)

/-- `renameItem` (automation-cli.js:450): clicks are checked before
subcontexts; the entry is rebound via `obj[newName] = obj[oldName]` followed by
`delete obj[oldName]` — there is no check that `newName` is free, so an
existing entry under `newName` is silently overwritten. -/
def renameItem (tree : ContextNode) (p : List String) (oldName newName : String) :
    ContextNode × Option String :=
  let tree' := vivify tree p
  let cur := (getNode tree' p).getD emptyNode
  match lookup cur.clicks oldName with
  | some v =>
    (updateAt tree' p
      (fun n => .node (delKey (setKey n.clicks newName v) oldName) n.subcontexts), none)
  | none =>
    match lookup cur.subcontexts oldName with
    | some c =>
      (updateAt tree' p
        (fun n => .node n.clicks (delKey (setKey n.subcontexts newName c) oldName)), none)
    | none => (tree', some "Item not found in current context")

/-- JS `s.split("/")` on the character list: empty pieces are kept, exactly
as in JavaScript (structural counterpart of `String.splitOn "/"`). -/
def splitSlashAux (cur : List Char) : List Char → List String
  | [] => [String.mk cur.reverse]
  | c :: rest =>
    if c = '/' then String.mk cur.reverse :: splitSlashAux [] rest
    else splitSlashAux (c :: cur) rest

/-- JS `s.split("/")`. -/
def splitSlash (s : String) : List String := splitSlashAux [] s.data

/-- Does the string start with a slash (JS `s.startsWith("/")`)? -/
def startsSlash (s : String) : Bool :=
  match s.data with
  | c :: _ => c = '/'
  | [] => false

/-- JS `s.substring(1)`. -/
def dropFirst (s : String) : String := String.mk (s.data.drop 1)

/-- Parse an absolute path: `path.substring(1).split("/").filter(x => x)`. -/
def parseAbsolute (s : String) : List String :=
  (splitSlash (dropFirst s)).filter (fun seg => seg ≠ "")

/-- Target-path parsing of `moveItem` (automation-cli.js:404): "/" is the
root; an absolute path is split on "/" dropping empty segments; a relative
path is resolved against the current path with ".." popping (a pop on the
empty array is a no-op) and "." and empty segments skipped. -/
def parseTarget (cur : List String) (targetPath : String) : List String :=
  if targetPath = "/" then []
  else if startsSlash targetPath then parseAbsolute targetPath
  else
    (splitSlash targetPath).foldl
      (fun acc part =>
        if part = ".." then acc.dropLast
        else if part ≠ "" && part ≠ "." then acc ++ [part]
        else acc)
      cur

/-- `moveItem` (automation-cli.js:387). The JS performs two heap mutations on
the shared object graph: `target.map[m] = item` then `delete current.map[m]`,
and the observable store is whatever is then reachable from the root (that is
what `saveClicks` serializes). For clicks (leaf values, never traversed by
paths) the two mutations compose as sequential functional updates. For a
moved subcontext the aliasing matters and the reachable result splits:
* target strictly inside the moved subtree, or equal to it (`p ++ [m]` a
  prefix of `t`): the insertion lands inside the item, the deletion then
  detaches the item from its parent, so from the root the subtree has simply
  vanished;
* the current path runs through the target's child named `m`
  (`t ++ [m]` a prefix of `p`): the insertion replaces that child (the node
  `current` lives under) by the item, so the later deletion mutates a
  detached object and is invisible from the root;
* otherwise the two updates do not interfere and compose sequentially (this
  includes `t = p`, where inserting the value already present and then
  deleting it nets to a deletion, exactly as in JS).
No cycle check of any kind is performed. -/
def moveItem (tree : ContextNode) (p : List String) (itemName targetPath : String) :
    ContextNode × Option String :=
  let tree' := vivify tree p
  let cur := (getNode tree' p).getD emptyNode
  match lookup cur.clicks itemName with
  | some click =>
    let t := parseTarget p targetPath
    match getNode tree' t with
    | none => (tree', some "Target context not found")
    | some _ =>
      let t1 := updateAt tree' t
        (fun n => .node (setKey n.clicks itemName click) n.subcontexts)
      (updateAt t1 p (fun n => .node (delKey n.clicks itemName) n.subcontexts), none)
  | none =>
    match lookup cur.subcontexts itemName with
    | some item =>
      let t := parseTarget p targetPath
      match getNode tree' t with
      | none => (tree', some "Target context not found")
      | some _ =>
        if (p ++ [itemName]).isPrefixOf t then
          (updateAt tree' p
            (fun n => .node n.clicks (delKey n.subcontexts itemName)), none)
        else if (t ++ [itemName]).isPrefixOf p then
          (updateAt tree' t
            (fun n => .node n.clicks (setKey n.subcontexts itemName item)), none)
        else
          let t1 := updateAt tree' t
            (fun n => .node n.clicks (setKey n.subcontexts itemName item))
          (updateAt t1 p
            (fun n => .node n.clicks (delKey n.subcontexts itemName)), none)
    | none => (tree', some "Item not found in current context")

/-- `changeContext` (automation-cli.js:321): ".." pops one level (at root a
no-op), an absolute path is split on "/", anything else is pushed as one
single segment; the resulting path is then verified against the tree and the
previous path restored when it does not resolve. Never fails fatally. -/
def changeContext (tree : ContextNode) (ctx : List String) (dir : String) : List String :=
  let c' :=
    if dir = ".." then ctx.dropLast
    else if startsSlash dir then parseAbsolute dir
    else ctx ++ [dir]
  match getNode tree c' with
  | some _ => c'
  | none => ctx

/-! ## Scope Resolver (`findClick`, automation-cli.js:474) -/

/-- The paths walked when building the scope chain: the current path, then —
popping one segment at a time — every shorter prefix down to the root
(automation-cli.js:476, the push loop). The final conditional push of the
root at lines 497–501 never fires: the chain built by the loop always ends
with the root object itself (the loop runs until the path is empty, and with
an empty starting path the initial element is already the root), and the
comparison is JS object identity. -/
def chainPaths (p : List String) : List (List String) := p.inits.reverse

/-- Scan of one subcontexts map for a click of the given name, in insertion
order (automation-cli.js:515, the `for ... in` sibling loop). Only each
child's own clicks map is consulted, never deeper descendants. -/
def childHit (subs : List (String × ContextNode)) (name : String) : Option ClickRecord :=
  match subs with
  | [] => none
  | (_, c) :: rest =>
    match lookup c.clicks name with
    | some r => some r
    | none => childHit rest name

/-- The scan over the scope chain (automation-cli.js:505): at every level the
node's own clicks map is checked first; at every level except the first
(`i > 0`, i.e. at proper ancestors) the clicks maps of all of that
ancestor's direct children are checked next. -/
def findClickAux : List ContextNode → Nat → String → Option ClickRecord
  | [], _, _ => none
  | c :: rest, i, name =>
    match lookup c.clicks name with
    | some r => some r
    | none =>
      if i > 0 then
        match childHit c.subcontexts name with
        | some r => some r
        | none => findClickAux rest (i + 1) name
      else findClickAux rest (i + 1) name

/-- `findClick`: builds the scope chain for the current path and scans it.
When the current path does not resolve, the JS walk at line 481 reads a field
of `undefined` and throws a `TypeError` (which `executeFlow` catches as a
step failure); every shorter prefix of a resolving path resolves, so the
chain is total exactly when the full path is. -/
def findClickE (tree : ContextNode) (p : List String) (name : String) :
    Except String (Option ClickRecord) :=
  match getNode tree p with
  | none => .error "TypeError"
  | some _ =>
    .ok (findClickAux ((chainPaths p).filterMap (getNode tree)) 0 name)

/-! ## Claim-statement helpers for the resolver

The ordering the spec claims for resolution is expressed as a flat list of
clicks maps, searched front to back: the current node's own map, then for
each ancestor (nearest first) that ancestor's own map followed by the maps of
its direct children in insertion order. The theorem for C2 proves `findClickE`
equal to this flat search. -/

/-- The clicks maps contributed by one ancestor level: its own map, then its
direct children's maps. -/
def levelMaps (n : ContextNode) : List (List (String × ClickRecord)) :=
  n.clicks :: n.subcontexts.map (fun x => x.2.clicks)

/-- The full claimed search order from a current node and its ancestor list
(nearest ancestor first). -/
def scopeMaps (tree : ContextNode) (p : List String) : List (List (String × ClickRecord)) :=
  match (chainPaths p).filterMap (getNode tree) with
  | [] => []
  | top :: ancestors => top.clicks :: (ancestors.map levelMaps).flatten

/-- First hit in a list of clicks maps. -/
def firstHit (maps : List (List (String × ClickRecord))) (name : String) :
    Option ClickRecord :=
  match maps with
  | [] => none
  | m :: rest =>
    match lookup m name with
    | some r => some r
    | none => firstHit rest name

/-! ## Command Channel (`sendToRobot`, automation-cli.js:127)

The caller serializes the command to `input.txt`, then polls `output.txt`
every 100 ms, at most 100 attempts; a readable non-blank response is deleted
(consumed) and returned; after 100 failed attempts a `Robot timeout` error is
thrown. The executor is modeled as a write schedule `writes : Nat → Option
String` over discrete poll ticks; the response-file content is threaded
through explicitly, because `sendToRobot` never clears it on entry. -/

/-- The response file after the executor's (possible) write at tick `t`. -/
def applyWrite (writes : Nat → Option String) (t : Nat) (file : Option String) :
    Option String :=
  match writes t with
  | some s => some s
  | none => file

/-- JS truthiness of `content && content.trim()`: the content has some
non-whitespace character (`Char.isWhitespace` approximates the JS trim set). -/
def hasText (s : String) : Bool := s.data.any (fun c => !c.isWhitespace)

/-- The polling loop of `sendToRobot` (automation-cli.js:131): countdown of
remaining attempts, current tick, current response-file content. Returns the
outcome (`.error ()` is the thrown `Robot timeout`) and the response-file
content left behind — a consumed response is deleted, a blank one is not. -/
def pollLoop (writes : Nat → Option String) :
    Nat → Nat → Option String → Except Unit String × Option String
  | 0, _, file => (.error (), file)
  | a + 1, t, file =>
    match applyWrite writes t file with
    | some c =>
      if hasText c then (.ok c, none)
      else pollLoop writes a (t + 1) (some c)
    | none => pollLoop writes a (t + 1) none

/-- One `sendToRobot` call: the command is written to `input.txt` (the
`command` argument records it; the channel state modeled here is the response
file, which the call does NOT clear before polling), then the response file
is polled 100 times starting at tick `t0`. -/
def sendToRobot (writes : Nat → Option String) (_command : String) (t0 : Nat)
    (file : Option String) : Except Unit String × Option String :=
  pollLoop writes 100 t0 file

/-! ## Flow Runner (`executeFlow`, automation-cli.js:527)

The interpreter is embedded with the executor abstracted as an oracle
`robot : List Cmd → Cmd → Option Resp` (response as a function of the
command history; `none` is the `Robot timeout` exception thrown by
`sendToRobot`, the only way a channel call fails — an explicit
`{success:false}` response is returned like any other and, as in the JS, its
`success` field is never inspected by the runner). Nested `flow` steps
recurse through a fuel parameter; `none` at the top level means the fuel was
exhausted, i.e. the JS recursion did not come back within that depth. -/

/-- A command written to the executor (the `action` payloads of
`sendToRobot` calls made by `executeFlow`/`executeCheckpoint`). -/
inductive Cmd : Type where
  | click (x y : Int) (doubleClick : Bool)
  | setClipboard (text : String)
  | key (keys : String)
  | copy
  | paste
  | scroll (amount : Int)
  | screenshot (flowName : String) (stepNum : Nat)
deriving Repr, DecidableEq

/-- A parsed executor response: `{success, clipboard?, error?}`. -/
structure Resp where
  success : Bool
  clipboard : Option String
  error : Option String
deriving Repr, DecidableEq

/-- Kinds of checkpoint actions; anything beyond click/doubleClick/copy falls
into the ignored default branch of `executeCheckpoint`. -/
inductive CPKind : Type where
  | click
  | doubleClick
  | copy
  | other
deriving Repr, DecidableEq

/-- One checkpoint action `{type, name?, expect?}`. -/
structure CPAction where
  kind : CPKind
  name : String
  expect : Option String
deriving Repr, DecidableEq

/-- A checkpoint: an ordered action list. -/
structure Checkpoint where
  actions : List CPAction
deriving Repr, DecidableEq

/-- A flow step (closed tagged variant, spec §3; unknown types would fall
through the JS switch silently and are not modeled). -/
inductive Step : Type where
  | navigate (path : String)
  | click (name : String) (doubleClick : Bool)
  | setClipboard (text : String)
  | key (keys : String)
  | copy
  | paste
  | pause (ms : Option Nat) (message : Option String)
  | checkpoint (cp : Checkpoint)
  | flow (flowName : String)
  | scroll (amount : Int)
deriving Repr, DecidableEq

/-- A flow file: `{name, description, allowedContext, steps}`; only `steps`
is ever read by `executeFlow` (`allowedContext` is never checked). -/
structure Flow where
  steps : List Step
deriving Repr, DecidableEq

/-- The interpreter's environment: the (read-only during a run) context tree,
the flows directory, and the executor oracle. -/
structure FlowEnv : Type where
  tree : ContextNode
  flows : String → Option Flow
  robot : List Cmd → Cmd → Option Resp

/-- One record of a run's log directory: `{step, success, error?}` plus the
clipboard captured onto the step object by a `copy` step
(automation-cli.js:601). `stepNum` is the number in the zero-padded log and
screenshot file names. -/
structure LogEntry where
  stepNum : Nat
  step : Step
  success : Bool
  error : Option String
  clipboard : Option String
deriving Repr, DecidableEq

/-- Outcome of one `executeFlow` invocation: final current context, full
command history, this run's log records, the step numbers whose execution
started (in order), and whether the loop ran to completion (the JS prints
`Flow completed successfully` exactly in that case; the function itself
returns `undefined` either way). -/
structure RunResult where
  ctx : List String
  hist : List Cmd
  log : List LogEntry
  trace : List Nat
  completed : Bool
deriving Repr, DecidableEq

/-- `executeCheckpoint` (automation-cli.js:669): runs the action list in
order. `.error` is a thrown exception (timeout, or the `TypeError` from an
unresolvable current path); `.ok false` is a failed gate (unresolved
checkpoint click, or a `copy` whose non-empty `expect` differs from the
returned clipboard — the comparison is `!==`, verbatim and case-sensitive,
but an empty `expect` is falsy in JS and disables the check entirely). -/
def runCheckpoint (env : FlowEnv) (ctx : List String) :
    List CPAction → List Cmd → Except (String × List Cmd) (Bool × List Cmd)
  | [], hist => .ok (true, hist)
  | a :: rest, hist =>
    match a.kind with
    | .click | .doubleClick =>
      match findClickE env.tree ctx a.name with
      | .error m => .error (m, hist)
      | .ok none => .ok (false, hist)
      | .ok (some r) =>
        let cmd := Cmd.click r.x r.y (a.kind = CPKind.doubleClick)
        match env.robot hist cmd with
        | none => .error ("Robot timeout", hist ++ [cmd])
        | some _ => runCheckpoint env ctx rest (hist ++ [cmd])
    | .copy =>
      match env.robot hist Cmd.copy with
      | none => .error ("Robot timeout", hist ++ [Cmd.copy])
      | some resp =>
        match a.expect with
        | some e =>
          if e ≠ "" && resp.clipboard ≠ some e then .ok (false, hist ++ [Cmd.copy])
          else runCheckpoint env ctx rest (hist ++ [Cmd.copy])
        | none => runCheckpoint env ctx rest (hist ++ [Cmd.copy])
    | .other => runCheckpoint env ctx rest hist

/-- A passthrough step body: send one command, fail the step only on a
channel timeout (an explicit error response is returned and ignored). -/
def passthrough (env : FlowEnv) (ctx : List String) (hist : List Cmd) (cmd : Cmd) :
    Except (String × List Cmd) (List String × List Cmd × Option String) :=
  match env.robot hist cmd with
  | none => .error ("Robot timeout", hist ++ [cmd])
  | some _ => .ok (ctx, hist ++ [cmd], none)

/-- The body of one iteration of the `executeFlow` step loop (the `switch` at
automation-cli.js:562), as a function of the nested-flow handler. Success
carries the new context, the command history and the clipboard captured onto
the step (for `copy`); `.error` is the caught exception with the history at
throw time; the outer `none` is exhausted fuel inside a nested flow. -/
def execStep (nested : String → List String → List Cmd → Option RunResult)
    (env : FlowEnv) (ctx : List String) (hist : List Cmd) :
    Step → Option (Except (String × List Cmd) (List String × List Cmd × Option String))
  | .navigate path => some (.ok (changeContext env.tree ctx path, hist, none))
  | .click name dbl =>
    match findClickE env.tree ctx name with
    | .error m => some (.error (m, hist))
    | .ok none => some (.error ("Click not found", hist))
    | .ok (some r) =>
      let cmd := Cmd.click r.x r.y dbl
      match env.robot hist cmd with
      | none => some (.error ("Robot timeout", hist ++ [cmd]))
      | some _ =>
        let ctx' :=
          match r.targetContext with
          | some tc => if tc ≠ "" then changeContext env.tree ctx tc else ctx
          | none => ctx
        some (.ok (ctx', hist ++ [cmd], none))
  | .setClipboard text => some (passthrough env ctx hist (Cmd.setClipboard text))
  | .key keys => some (passthrough env ctx hist (Cmd.key keys))
  | .copy =>
    match env.robot hist Cmd.copy with
    | none => some (.error ("Robot timeout", hist ++ [Cmd.copy]))
    | some resp => some (.ok (ctx, hist ++ [Cmd.copy], resp.clipboard))
  | .paste => some (passthrough env ctx hist Cmd.paste)
  | .pause _ _ => some (.ok (ctx, hist, none))
  | .checkpoint cp =>
    match runCheckpoint env ctx cp.actions hist with
    | .error e => some (.error e)
    | .ok (false, h) => some (.error ("Checkpoint failed", h))
    | .ok (true, h) => some (.ok (ctx, h, none))
  | .flow name =>
    match nested name ctx hist with
    | none => none
    | some r => some (.ok (r.ctx, r.hist, none))
  | .scroll amount => some (passthrough env ctx hist (Cmd.scroll amount))

/-- The step loop of `executeFlow` (automation-cli.js:555). On step success a
success log record is written and a screenshot requested; if the screenshot
request itself times out, the catch block overwrites that record with a
failure record for the same step, restores the entry context and returns.
On step failure: failure record, context restored to `flowCtx`, return —
remaining steps never run. -/
def runSteps (nested : String → List String → List Cmd → Option RunResult)
    (env : FlowEnv) (flowName : String) (flowCtx : List String) :
    List Step → Nat → List String → List Cmd → Option RunResult
  | [], _, ctx, hist => some ⟨ctx, hist, [], [], true⟩
  | step :: rest, n, ctx, hist =>
    match execStep nested env ctx hist step with
    | none => none
    | some (.error (msg, h)) =>
      some ⟨flowCtx, h, [⟨n, step, false, some msg, none⟩], [n], false⟩
    | some (.ok (ctx', h, captured)) =>
      let shot := Cmd.screenshot flowName n
      match env.robot h shot with
      | none =>
        some ⟨flowCtx, h ++ [shot], [⟨n, step, false, some "Robot timeout", captured⟩],
          [n], false⟩
      | some _ =>
        match runSteps nested env flowName flowCtx rest (n + 1) ctx' (h ++ [shot]) with
        | none => none
        | some r =>
          some ⟨r.ctx, r.hist, ⟨n, step, true, none, captured⟩ :: r.log,
            n :: r.trace, r.completed⟩

/-- `executeFlow` (automation-cli.js:527). A missing flow file prints the
available flows and returns (no log directory, no steps, no completion
message). Otherwise the saved entry context is restored on every exit path
(line 659 on failure, line 665 on success), so the result context always
equals the entry context. Fuel bounds the nested-flow recursion depth; the
JS itself recurses on the host stack with no bound. -/
def runFlow (env : FlowEnv) : Nat → String → List String → List Cmd → Option RunResult
  | 0, _, _, _ => none
  | fuel + 1, name, ctx, hist =>
    match env.flows name with
    | none => some ⟨ctx, hist, [], [], false⟩
    | some f =>
      match runSteps (runFlow env fuel) env name ctx f.steps 1 ctx hist with
      | none => none
      | some r => some ⟨ctx, r.hist, r.log, r.trace, r.completed⟩

/-! ## Registry operation sequences (for the C4 invariant) -/

/-- One registry mutation issued from a current path (the operator commands
`mkcontext`, `move`, `rename`). -/
inductive RegOp : Type where
  | mk (p : List String) (name : String)
  | mv (p : List String) (itemName targetPath : String)
  | rn (p : List String) (oldName newName : String)

/-- Apply one operation to the store, keeping whatever tree the operation
leaves behind (on a rejected operation that is the tree as mutated by the
`getCurrentContextObj` vivification, exactly as in the JS). -/
def applyOp (t : ContextNode) : RegOp → ContextNode
  | .mk p name => (makeContext t p name).1
  | .mv p itemName targetPath => (moveItem t p itemName targetPath).1
  | .rn p oldName newName => (renameItem t p oldName newName).1

/-! ## Concrete scenarios used by witnesses and counterexamples -/

/-- The record held by `/chrome` under the name `search`. -/
def searchRec : ClickRecord := ⟨40, 50, none⟩

/-- `/chrome` holds click `search`; its children `/chrome/tabs` and
`/chrome/devtools` hold no click at all (spec §8 scope determinism example). -/
def chromeTree : ContextNode :=
  .node []
    [("chrome", .node [("search", searchRec)]
        [("tabs", emptyNode), ("devtools", emptyNode)])]

/-- The record held by `/chrome/devtools` in the sibling-visibility tree. -/
def devtoolsRec : ClickRecord := ⟨7, 8, none⟩

/-- Only `/chrome/devtools` defines the click `target-click`. -/
def siblingTree : ContextNode :=
  .node []
    [("chrome", .node []
        [("tabs", emptyNode),
         ("devtools", .node [("target-click", devtoolsRec)] [])])]

/-- Only `/chrome/devtools/panel` (one level deeper) defines `deep-click`. -/
def deepTree : ContextNode :=
  .node []
    [("chrome", .node []
        [("tabs", emptyNode),
         ("devtools", .node []
            [("panel", .node [("deep-click", ⟨9, 9, none⟩)] [])])])]

/-- Two clicks at the root. -/
def recA : ClickRecord := ⟨1, 1, none⟩

/-- A second distinct click record. -/
def recB : ClickRecord := ⟨2, 2, none⟩

/-- Root holding clicks `a` and `b` (rename-collision scenario). -/
def renameTree : ContextNode := .node [("a", recA), ("b", recB)] []

/-- Root holding only the click `a` (mkcontext-collision scenario). -/
def clickTree : ContextNode := .node [("a", recA)] []

/-- Root with subcontext `a` containing subcontext `b` (self-subtree move). -/
def moveDemoTree : ContextNode := .node [] [("a", .node [] [("b", emptyNode)])]

/-- An executor response with no payload. -/
def okResp : Resp := ⟨true, none, none⟩

/-- Flow `f` = key, unresolvable click, key; executor always succeeds. The
middle step throws, so the abort path of the runner is exercised. -/
def envA : FlowEnv :=
  { tree := emptyNode
    flows := fun n =>
      if n = "f" then some ⟨[.key "a", .click "missing" false, .key "b"]⟩ else none
    robot := fun _ _ => some okResp }

/-- Flow `g` = two key steps; the executor answers every command with an
explicit error response `{success:false, error:"boom"}`. -/
def envErr : FlowEnv :=
  { tree := emptyNode
    flows := fun n => if n = "g" then some ⟨[.key "x", .key "y"]⟩ else none
    robot := fun _ _ => some ⟨false, none, some "boom"⟩ }

/-- Flow `self` consists of a single step invoking `self` again. -/
def envSelf : FlowEnv :=
  { tree := emptyNode
    flows := fun n => if n = "self" then some ⟨[.flow "self"]⟩ else none
    robot := fun _ _ => some okResp }

/-- Flow `inner` fails fatally at its first step (unresolvable click); flow
`outer` invokes `inner` and then runs a key step. -/
def envNest : FlowEnv :=
  { tree := emptyNode
    flows := fun n =>
      if n = "inner" then some ⟨[.click "missing" false]⟩
      else if n = "outer" then some ⟨[.flow "inner", .key "k"]⟩ else none
    robot := fun _ _ => some okResp }

/-- An executor whose `copy` response carries clipboard text `Foo`. -/
def cpFooEnv : FlowEnv :=
  { tree := emptyNode
    flows := fun _ => none
    robot := fun _ _ => some ⟨true, some "Foo", none⟩ }

/-- An executor whose `copy` response carries clipboard text `actual`. -/
def cpAnyEnv : FlowEnv :=
  { tree := emptyNode
    flows := fun _ => none
    robot := fun _ _ => some ⟨true, some "actual", none⟩ }

/-- An executor write schedule that produces the (sole) response only at tick
100 — one tick after the 100-attempt polling window of a call started at
tick 0 has closed. -/
def lateWrites : Nat → Option String :=
  fun t => if t = 100 then some "late-response" else none

/-- The response-file content as seen at successive poll attempts: attempt
`i` of a call started at tick `t0` observes the file after the executor's
write at tick `t0 + i`. -/
def seenAt (writes : Nat → Option String) (t0 : Nat) (file : Option String) :
    Nat → Option String
  | 0 => applyWrite writes t0 file
  | i + 1 => applyWrite writes (t0 + i + 1) (seenAt writes t0 file i)

/-! ## Association-list lemmas -/

theorem hasKey_false_iff {α : Type} (l : List (String × α)) (k : String) :
    hasKey l k = false ↔ lookup l k = none := by
  cases hl : lookup l k <;> simp [hasKey, hl]

theorem lookup_setKey {α : Type} (l : List (String × α)) (k k' : String) (v : α) :
    lookup (setKey l k v) k' = if k' = k then some v else lookup l k' := by
  induction l with
  | nil =>
    simp only [setKey, lookup]
    by_cases h : k' = k
    · subst h; simp
    · rw [if_neg (fun hh => h hh.symm), if_neg h]
  | cons hd tl ih =>
    obtain ⟨a, b⟩ := hd
    simp only [setKey]
    by_cases hak : a = k
    · subst hak
      simp only [if_pos rfl, lookup]
      by_cases h : k' = a
      · subst h; simp
      · rw [if_neg (fun hh => h hh.symm), if_neg h, if_neg (fun hh => h hh.symm)]
    · rw [if_neg hak]
      simp only [lookup, ih]
      by_cases h : a = k'
      · subst h
        rw [if_pos rfl, if_neg hak, if_pos rfl]
      · by_cases h2 : k' = k
        · rw [if_neg h, if_pos h2, if_pos h2]
        · rw [if_neg h, if_neg h2, if_neg h2, if_neg h]

theorem lookup_delKey_ne {α : Type} (l : List (String × α)) (k k' : String)
    (h : k' ≠ k) : lookup (delKey l k) k' = lookup l k' := by
  induction l with
  | nil => simp [delKey]
  | cons hd tl ih =>
    obtain ⟨a, b⟩ := hd
    by_cases hak : a = k
    · subst hak
      have hd : delKey ((a, b) :: tl) a = tl := by simp [delKey]
      rw [hd]
      simp only [lookup]
      rw [if_neg (Ne.symm h)]
    · by_cases h' : a = k'
      · subst h'
        simp [delKey, lookup, hak]
      · simp [delKey, lookup, hak, h', ih]

theorem lookup_none_delKey {α : Type} (l : List (String × α)) (k k' : String)
    (h : lookup l k' = none) : lookup (delKey l k) k' = none := by
  induction l with
  | nil => simpa [delKey] using h
  | cons hd tl ih =>
    obtain ⟨a, b⟩ := hd
    by_cases h' : a = k'
    · simp [lookup, h'] at h
    · simp only [lookup, h', if_false] at h
      by_cases hak : a = k
      · simpa [delKey, hak] using h
      · simp [delKey, hak, lookup, h', ih h]

theorem lookup_delKey_self {α : Type} (l : List (String × α)) (k : String)
    (h : nodupKeys l = true) : lookup (delKey l k) k = none := by
  induction l with
  | nil => simp [delKey, lookup]
  | cons hd tl ih =>
    obtain ⟨a, b⟩ := hd
    simp only [nodupKeys, Bool.and_eq_true, Bool.not_eq_true'] at h
    by_cases hak : a = k
    · subst hak
      simp only [delKey, if_pos rfl]
      exact (hasKey_false_iff tl a).mp h.1
    · simp [delKey, lookup, hak, ih h.2]

theorem nodupKeys_setKey {α : Type} (l : List (String × α)) (k : String) (v : α)
    (h : nodupKeys l = true) : nodupKeys (setKey l k v) = true := by
  induction l with
  | nil => simp [setKey, nodupKeys, hasKey, lookup]
  | cons hd tl ih =>
    obtain ⟨a, b⟩ := hd
    simp only [nodupKeys, Bool.and_eq_true, Bool.not_eq_true'] at h
    by_cases hak : a = k
    · subst hak
      simp only [setKey, if_pos rfl, nodupKeys, Bool.and_eq_true, Bool.not_eq_true']
      exact h
    · simp only [setKey, hak, if_false, nodupKeys, Bool.and_eq_true, Bool.not_eq_true']
      refine ⟨?_, ih h.2⟩
      rw [hasKey_false_iff, lookup_setKey, if_neg hak]
      exact (hasKey_false_iff tl a).mp h.1

theorem nodupKeys_delKey {α : Type} (l : List (String × α)) (k : String)
    (h : nodupKeys l = true) : nodupKeys (delKey l k) = true := by
  induction l with
  | nil => simp [delKey, nodupKeys]
  | cons hd tl ih =>
    obtain ⟨a, b⟩ := hd
    simp only [nodupKeys, Bool.and_eq_true, Bool.not_eq_true'] at h
    by_cases hak : a = k
    · subst hak
      simp only [delKey, if_pos rfl]
      exact h.2
    · simp only [delKey, hak, if_false, nodupKeys, Bool.and_eq_true, Bool.not_eq_true']
      refine ⟨?_, ih h.2⟩
      rw [hasKey_false_iff]
      exact lookup_none_delKey _ _ _ ((hasKey_false_iff tl a).mp h.1)

theorem setKey_self {α : Type} (l : List (String × α)) (k : String) (v : α)
    (h : lookup l k = some v) : setKey l k v = l := by
  induction l with
  | nil => simp [lookup] at h
  | cons hd tl ih =>
    obtain ⟨a, b⟩ := hd
    by_cases hak : a = k
    · subst hak
      simp [lookup] at h
      subst h
      simp [setKey]
    · simp only [lookup, hak, if_false] at h
      simp [setKey, hak, ih h]

/-! ## Well-formedness lemmas -/

theorem wf_def (cs : List (String × ClickRecord)) (subs : List (String × ContextNode)) :
    wf (.node cs subs) = (nodupKeys cs && nodupKeys subs && wfSubs subs) := by
  simp [wf]

theorem wfSubs_nil : wfSubs [] = true := by simp [wfSubs]

theorem wfSubs_cons (k : String) (c : ContextNode) (rest : List (String × ContextNode)) :
    wfSubs ((k, c) :: rest) = (wf c && wfSubs rest) := by
  simp [wfSubs]

theorem wf_emptyNode : wf emptyNode = true := by
  simp [emptyNode, wf_def, nodupKeys, wfSubs_nil]

theorem wfSubs_lookup (subs : List (String × ContextNode)) (k : String) (c : ContextNode)
    (h : wfSubs subs = true) (hl : lookup subs k = some c) : wf c = true := by
  induction subs with
  | nil => simp [lookup] at hl
  | cons hd tl ih =>
    obtain ⟨a, b⟩ := hd
    rw [wfSubs_cons, Bool.and_eq_true] at h
    by_cases hak : a = k
    · subst hak
      simp [lookup] at hl
      exact hl ▸ h.1
    · simp only [lookup, hak, if_false] at hl
      exact ih h.2 hl

theorem wfSubs_setKey (subs : List (String × ContextNode)) (k : String) (c : ContextNode)
    (h1 : wfSubs subs = true) (h2 : wf c = true) : wfSubs (setKey subs k c) = true := by
  induction subs with
  | nil => simp [setKey, wfSubs_cons, wfSubs_nil, h2]
  | cons hd tl ih =>
    obtain ⟨a, b⟩ := hd
    rw [wfSubs_cons, Bool.and_eq_true] at h1
    by_cases hak : a = k
    · subst hak
      simp [setKey, wfSubs_cons, h2, h1.2]
    · simp [setKey, hak, wfSubs_cons, h1.1, ih h1.2]

theorem wfSubs_delKey (subs : List (String × ContextNode)) (k : String)
    (h : wfSubs subs = true) : wfSubs (delKey subs k) = true := by
  induction subs with
  | nil => simpa [delKey] using h
  | cons hd tl ih =>
    obtain ⟨a, b⟩ := hd
    rw [wfSubs_cons, Bool.and_eq_true] at h
    by_cases hak : a = k
    · subst hak
      simp [delKey, h.2]
    · simp [delKey, hak, wfSubs_cons, h.1, ih h.2]

theorem wf_getNode : ∀ (p : List String) (t n : ContextNode),
    wf t = true → getNode t p = some n → wf n = true := by
  intro p
  induction p with
  | nil =>
    intro t n h hg
    simp only [getNode, Option.some_inj] at hg
    exact hg ▸ h
  | cons seg rest ih =>
    intro t n h hg
    obtain ⟨cs, subs⟩ := t
    rw [wf_def] at h
    simp only [Bool.and_eq_true] at h
    simp only [getNode] at hg
    cases hl : lookup (ContextNode.node cs subs).subcontexts seg with
    | none => rw [hl] at hg; cases hg
    | some c =>
      rw [hl] at hg
      exact ih c n (wfSubs_lookup _ _ _ h.2 hl) hg

theorem wf_updateAt : ∀ (p : List String) (t : ContextNode) (f : ContextNode → ContextNode),
    wf t = true → (∀ n, wf n = true → wf (f n) = true) → wf (updateAt t p f) = true := by
  intro p
  induction p with
  | nil =>
    intro t f h hf
    simpa [updateAt] using hf t h
  | cons seg rest ih =>
    intro t f h hf
    obtain ⟨cs, subs⟩ := t
    rw [wf_def] at h
    simp only [Bool.and_eq_true] at h
    simp only [updateAt]
    cases hl : lookup subs seg with
    | none => rw [wf_def]; simp [h.1.1, h.1.2, h.2]
    | some c =>
      rw [wf_def]
      simp only [Bool.and_eq_true]
      refine ⟨⟨h.1.1, nodupKeys_setKey _ _ _ h.1.2⟩, ?_⟩
      exact wfSubs_setKey _ _ _ h.2 (ih c f (wfSubs_lookup _ _ _ h.2 hl) hf)

theorem wf_vivify : ∀ (p : List String) (t : ContextNode),
    wf t = true → wf (vivify t p) = true := by
  intro p
  induction p with
  | nil => intro t h; simpa [vivify] using h
  | cons seg rest ih =>
    intro t h
    obtain ⟨cs, subs⟩ := t
    rw [wf_def] at h
    simp only [Bool.and_eq_true] at h
    simp only [vivify]
    cases hl : lookup subs seg with
    | none =>
      rw [wf_def]
      simp only [Bool.and_eq_true]
      exact ⟨⟨h.1.1, nodupKeys_setKey _ _ _ h.1.2⟩,
        wfSubs_setKey _ _ _ h.2 (ih _ wf_emptyNode)⟩
    | some c =>
      rw [wf_def]
      simp only [Bool.and_eq_true]
      exact ⟨⟨h.1.1, nodupKeys_setKey _ _ _ h.1.2⟩,
        wfSubs_setKey _ _ _ h.2 (ih _ (wfSubs_lookup _ _ _ h.2 hl))⟩

theorem wf_getD (t : ContextNode) (p : List String) (h : wf t = true) :
    wf ((getNode t p).getD emptyNode) = true := by
  cases hg : getNode t p with
  | none => simpa using wf_emptyNode
  | some n => simpa using wf_getNode p t n h hg

theorem wf_sub_lookup (n : ContextNode) (k : String) (c : ContextNode)
    (h : wf n = true) (hl : lookup n.subcontexts k = some c) : wf c = true := by
  obtain ⟨cs, subs⟩ := n
  rw [wf_def] at h
  simp only [Bool.and_eq_true] at h
  exact wfSubs_lookup _ _ _ h.2 hl

theorem wf_addSub (name : String) (c : ContextNode) (hc : wf c = true) :
    ∀ n, wf n = true → wf (.node n.clicks (setKey n.subcontexts name c)) = true := by
  intro n hn
  obtain ⟨cs, subs⟩ := n
  rw [wf_def] at hn ⊢
  simp only [Bool.and_eq_true] at hn ⊢
  exact ⟨⟨hn.1.1, nodupKeys_setKey _ _ _ hn.1.2⟩, wfSubs_setKey _ _ _ hn.2 hc⟩

theorem wf_delSub (name : String) :
    ∀ n, wf n = true → wf (.node n.clicks (delKey n.subcontexts name)) = true := by
  intro n hn
  obtain ⟨cs, subs⟩ := n
  rw [wf_def] at hn ⊢
  simp only [Bool.and_eq_true] at hn ⊢
  exact ⟨⟨hn.1.1, nodupKeys_delKey _ _ hn.1.2⟩, wfSubs_delKey _ _ hn.2⟩

theorem wf_setClick (name : String) (v : ClickRecord) :
    ∀ n, wf n = true → wf (.node (setKey n.clicks name v) n.subcontexts) = true := by
  intro n hn
  obtain ⟨cs, subs⟩ := n
  rw [wf_def] at hn ⊢
  simp only [Bool.and_eq_true] at hn ⊢
  exact ⟨⟨nodupKeys_setKey _ _ _ hn.1.1, hn.1.2⟩, hn.2⟩

theorem wf_delClick (name : String) :
    ∀ n, wf n = true → wf (.node (delKey n.clicks name) n.subcontexts) = true := by
  intro n hn
  obtain ⟨cs, subs⟩ := n
  rw [wf_def] at hn ⊢
  simp only [Bool.and_eq_true] at hn ⊢
  exact ⟨⟨nodupKeys_delKey _ _ hn.1.1, hn.1.2⟩, hn.2⟩

theorem wf_renameClicks (oldName newName : String) (v : ClickRecord) :
    ∀ n, wf n = true →
      wf (.node (delKey (setKey n.clicks newName v) oldName) n.subcontexts) = true := by
  intro n hn
  obtain ⟨cs, subs⟩ := n
  rw [wf_def] at hn ⊢
  simp only [Bool.and_eq_true] at hn ⊢
  exact ⟨⟨nodupKeys_delKey _ _ (nodupKeys_setKey _ _ _ hn.1.1), hn.1.2⟩, hn.2⟩

theorem wf_renameSubs (oldName newName : String) (c : ContextNode) (hc : wf c = true) :
    ∀ n, wf n = true →
      wf (.node n.clicks (delKey (setKey n.subcontexts newName c) oldName)) = true := by
  intro n hn
  obtain ⟨cs, subs⟩ := n
  rw [wf_def] at hn ⊢
  simp only [Bool.and_eq_true] at hn ⊢
  exact ⟨⟨hn.1.1, nodupKeys_delKey _ _ (nodupKeys_setKey _ _ _ hn.1.2)⟩,
    wfSubs_delKey _ _ (wfSubs_setKey _ _ _ hn.2 hc)⟩

theorem wf_makeContext (t : ContextNode) (p : List String) (name : String)
    (h : wf t = true) : wf (makeContext t p name).1 = true := by
  simp only [makeContext]
  split
  · simpa using h
  · split
    · simpa using wf_vivify p t h
    · exact wf_updateAt p _ _ (wf_vivify p t h) (wf_addSub name emptyNode wf_emptyNode)

theorem wf_renameItem (t : ContextNode) (p : List String) (oldName newName : String)
    (h : wf t = true) : wf (renameItem t p oldName newName).1 = true := by
  simp only [renameItem]
  split
  · exact wf_updateAt p _ _ (wf_vivify p t h) (wf_renameClicks oldName newName _)
  · split
    · next c hl =>
      exact wf_updateAt p _ _ (wf_vivify p t h)
        (wf_renameSubs oldName newName c
          (wf_sub_lookup _ _ _ (wf_getD _ _ (wf_vivify p t h)) hl))
    · simpa using wf_vivify p t h

theorem wf_moveItem (t : ContextNode) (p : List String) (itemName targetPath : String)
    (h : wf t = true) : wf (moveItem t p itemName targetPath).1 = true := by
  have hv : wf (vivify t p) = true := wf_vivify p t h
  simp only [moveItem]
  split
  · next click _ =>
    split
    · simpa using hv
    · exact wf_updateAt p _ _
        (wf_updateAt _ _ _ hv (wf_setClick itemName click)) (wf_delClick itemName)
  · split
    · next item hl =>
      have hitem : wf item = true :=
        wf_sub_lookup _ _ _ (wf_getD _ _ hv) hl
      split
      · simpa using hv
      · split
        · exact wf_updateAt p _ _ hv (wf_delSub itemName)
        · split
          · exact wf_updateAt _ _ _ hv (wf_addSub itemName item hitem)
          · exact wf_updateAt p _ _
              (wf_updateAt _ _ _ hv (wf_addSub itemName item hitem)) (wf_delSub itemName)
    · simpa using hv

theorem wf_applyOp (t : ContextNode) (op : RegOp) (h : wf t = true) :
    wf (applyOp t op) = true := by
  cases op with
  | mk p name => exact wf_makeContext t p name h
  | mv p itemName targetPath => exact wf_moveItem t p itemName targetPath h
  | rn p oldName newName => exact wf_renameItem t p oldName newName h

theorem wf_foldl_applyOp (ops : List RegOp) :
    ∀ t, wf t = true → wf (ops.foldl applyOp t) = true := by
  induction ops with
  | nil => intro t h; simpa using h
  | cons op rest ih => intro t h; exact ih _ (wf_applyOp t op h)

theorem vivify_of_valid : ∀ (p : List String) (t n : ContextNode),
    getNode t p = some n → vivify t p = t := by
  intro p
  induction p with
  | nil => intro t n _; simp [vivify]
  | cons seg rest ih =>
    intro t n hg
    obtain ⟨cs, subs⟩ := t
    simp only [getNode] at hg
    cases hl : lookup (ContextNode.node cs subs).subcontexts seg with
    | none => rw [hl] at hg; cases hg
    | some c =>
      rw [hl] at hg
      simp only [ContextNode.subcontexts] at hl
      simp only [vivify, hl, ih c n hg]
      rw [setKey_self _ _ _ hl]

/-! ## Scope-resolver lemmas -/

theorem firstHit_append (m1 m2 : List (List (String × ClickRecord))) (name : String) :
    firstHit (m1 ++ m2) name =
      match firstHit m1 name with
      | some r => some r
      | none => firstHit m2 name := by
  induction m1 with
  | nil => simp [firstHit]
  | cons m rest ih =>
    simp only [List.cons_append, firstHit]
    cases lookup m name with
    | some r => simp
    | none => simpa using ih

theorem childHit_eq (subs : List (String × ContextNode)) (name : String) :
    childHit subs name = firstHit (subs.map (fun x => x.2.clicks)) name := by
  induction subs with
  | nil => simp [childHit, firstHit]
  | cons hd tl ih =>
    simp only [childHit, List.map_cons, firstHit]
    cases lookup hd.2.clicks name with
    | some r => simp
    | none => simpa using ih

theorem findClickAux_pos (name : String) : ∀ (chain : List ContextNode) (i : Nat),
    0 < i →
    findClickAux chain i name = firstHit ((chain.map levelMaps).flatten) name := by
  intro chain
  induction chain with
  | nil => intro i _; simp [findClickAux, firstHit]
  | cons c rest ih =>
    intro i hi
    simp only [findClickAux, List.map_cons, List.flatten_cons, levelMaps]
    rw [firstHit_append]
    simp only [firstHit]
    cases lookup c.clicks name with
    | some r => simp
    | none =>
      simp only [if_pos hi]
      rw [childHit_eq]
      cases firstHit (List.map (fun x => x.2.clicks) c.subcontexts) name with
      | some r => simp
      | none => simpa using ih (i + 1) (Nat.succ_pos i)

theorem findClickE_eq_firstHit (tree : ContextNode) (p : List String) (name : String)
    (n : ContextNode) (h : getNode tree p = some n) :
    findClickE tree p name = .ok (firstHit (scopeMaps tree p) name) := by
  simp only [findClickE, h, scopeMaps]
  cases hc : (chainPaths p).filterMap (getNode tree) with
  | nil => simp [findClickAux, firstHit]
  | cons top ancestors =>
    simp only [findClickAux, firstHit]
    cases lookup top.clicks name with
    | some r => simp
    | none =>
      simp only [Nat.lt_irrefl, if_false]
      simpa using findClickAux_pos name ancestors 1 Nat.one_pos

/-! ## Flow-runner lemmas -/

theorem runSteps_completed_trace
    (nested : String → List String → List Cmd → Option RunResult) (env : FlowEnv)
    (flowName : String) (flowCtx : List String) :
    ∀ (steps : List Step) (n : Nat) (ctx : List String) (hist : List Cmd) (r : RunResult),
      runSteps nested env flowName flowCtx steps n ctx hist = some r →
      r.completed = true → r.trace = List.range' n steps.length := by
  intro steps
  induction steps with
  | nil =>
    intro n ctx hist r h _
    simp only [runSteps, Option.some_inj] at h
    subst h
    simp
  | cons step rest ih =>
    intro n ctx hist r h hc
    simp only [runSteps] at h
    cases he : execStep nested env ctx hist step with
    | none => rw [he] at h; cases h
    | some out =>
      rw [he] at h
      cases out with
      | error e =>
        obtain ⟨msg, hh⟩ := e
        simp only [Option.some_inj] at h
        subst h
        simp at hc
      | ok res =>
        obtain ⟨ctx', hh, captured⟩ := res
        simp only at h
        cases hs : env.robot hh (Cmd.screenshot flowName n) with
        | none =>
          rw [hs] at h
          simp only [Option.some_inj] at h
          subst h
          simp at hc
        | some _ =>
          rw [hs] at h
          cases hr : runSteps nested env flowName flowCtx rest (n + 1) ctx'
              (hh ++ [Cmd.screenshot flowName n]) with
          | none => rw [hr] at h; cases h
          | some r' =>
            rw [hr] at h
            simp only [Option.some_inj] at h
            subst h
            simp only at hc
            have ht := ih (n + 1) ctx' _ r' hr hc
            simp only [List.length_cons]
            rw [show List.range' n (rest.length + 1) = n :: List.range' (n + 1) rest.length
              from rfl]
            simpa using ht

theorem runSteps_append
    (nested : String → List String → List Cmd → Option RunResult) (env : FlowEnv)
    (flowName : String) (flowCtx : List String) :
    ∀ (pre rest : List Step) (n : Nat) (ctx : List String) (hist : List Cmd) (r : RunResult),
      runSteps nested env flowName flowCtx pre n ctx hist = some r →
      r.completed = true →
      runSteps nested env flowName flowCtx (pre ++ rest) n ctx hist =
        match runSteps nested env flowName flowCtx rest (n + pre.length) r.ctx r.hist with
        | none => none
        | some r2 => some ⟨r2.ctx, r2.hist, r.log ++ r2.log, r.trace ++ r2.trace,
            r2.completed⟩ := by
  intro pre
  induction pre with
  | nil =>
    intro rest n ctx hist r h _
    simp only [runSteps, Option.some_inj] at h
    subst h
    simp only [List.nil_append, List.length_nil, Nat.add_zero]
    cases hr : runSteps nested env flowName flowCtx rest n ctx hist with
    | none => simp
    | some r2 => simp
  | cons step pre' ih =>
    intro rest n ctx hist r h hc
    simp only [List.cons_append, runSteps] at h ⊢
    cases he : execStep nested env ctx hist step with
    | none => rw [he] at h; cases h
    | some out =>
      rw [he] at h
      cases out with
      | error e =>
        obtain ⟨msg, hh⟩ := e
        simp only [Option.some_inj] at h
        subst h
        simp at hc
      | ok res =>
        obtain ⟨ctx', hh, captured⟩ := res
        simp only at h ⊢
        cases hs : env.robot hh (Cmd.screenshot flowName n) with
        | none =>
          rw [hs] at h
          simp only [Option.some_inj] at h
          subst h
          simp at hc
        | some _ =>
          rw [hs] at h
          cases hr : runSteps nested env flowName flowCtx pre' (n + 1) ctx'
              (hh ++ [Cmd.screenshot flowName n]) with
          | none => rw [hr] at h; cases h
          | some r' =>
            rw [hr] at h
            simp only [Option.some_inj] at h
            subst h
            simp only at hc
            dsimp only
            have hih := ih rest (n + 1) ctx' _ r' hr hc
            simp only [List.append_eq] at hih ⊢
            rw [hih]
            simp only [List.length_cons]
            rw [show n + 1 + pre'.length = n + (pre'.length + 1) by omega]
            cases runSteps nested env flowName flowCtx rest (n + (pre'.length + 1))
                r'.ctx r'.hist with
            | none => simp
            | some r2 => simp

theorem execStep_flow_ok
    (nested : String → List String → List Cmd → Option RunResult) (env : FlowEnv)
    (ctx : List String) (hist : List Cmd) (name : String) (r : RunResult)
    (h : nested name ctx hist = some r) :
    execStep nested env ctx hist (.flow name) = some (.ok (r.ctx, r.hist, none)) := by
  simp [execStep, h]

/-! ## Command-channel lemmas -/

theorem seenAt_shift (writes : Nat → Option String) (t : Nat) (file : Option String) :
    ∀ i, seenAt writes t file (i + 1) =
      seenAt writes (t + 1) (applyWrite writes t file) i := by
  intro i
  induction i with
  | zero => simp [seenAt]
  | succ i ih =>
    show applyWrite writes (t + (i + 1) + 1) (seenAt writes t file (i + 1)) =
      applyWrite writes ((t + 1) + i + 1) (seenAt writes (t + 1) (applyWrite writes t file) i)
    rw [ih]
    congr 1
    omega

theorem pollLoop_timeout (writes : Nat → Option String) :
    ∀ (a t : Nat) (file : Option String),
      (∀ i, i < a → (seenAt writes t file i).all (fun c => !hasText c) = true) →
      (pollLoop writes a t file).1 = .error () := by
  intro a
  induction a with
  | zero => intro t file _; simp [pollLoop]
  | succ a ih =>
    intro t file h
    simp only [pollLoop]
    cases hw : applyWrite writes t file with
    | none =>
      refine ih (t + 1) none ?_
      intro i hi
      have := h (i + 1) (by omega)
      rwa [seenAt_shift, hw] at this
    | some c =>
      have hc : hasText c = false := by
        have := h 0 (Nat.succ_pos a)
        simp only [seenAt, hw, Option.all_some, Bool.not_eq_true'] at this
        exact this
      simp only [hc, Bool.false_eq_true, if_false]
      refine ih (t + 1) (some c) ?_
      intro i hi
      have := h (i + 1) (by omega)
      rwa [seenAt_shift, hw] at this

/-- A flow whose single step invokes itself exhausts every nesting budget:
`runFlow` on `envSelf` returns `none` (fuel exhausted) for every fuel value,
every context and every history. -/
theorem runFlow_self_none : ∀ (fuel : Nat) (ctx : List String) (hist : List Cmd),
    runFlow envSelf fuel "self" ctx hist = none := by
  intro fuel
  induction fuel with
  | zero => intro ctx hist; rfl
  | succ f ih =>
    intro ctx hist
    simp only [runFlow]
    rw [show envSelf.flows "self" = some ⟨[Step.flow "self"]⟩ from rfl]
    simp [runSteps, execStep, ih ctx hist]

/-! ## Claim theorems -/

/-- Claim C2 (confirmed): for every context tree and current path, scope
resolution of a click name searches, in order, the current node's own clicks
map, then — walking one ancestor level at a time toward the root — each
ancestor's own clicks map followed by the clicks maps of that ancestor's
direct children (this is exactly the flat search order `scopeMaps`, whose
level list is the prefix chain of the current path from longest to shortest);
in particular, with `/chrome` holding click `search` and children
`/chrome/tabs` and `/chrome/devtools` holding no click `search`, resolving
`search` from `/chrome/tabs` returns the record held by `/chrome`. -/
theorem C2_scope_resolution_order :
    (∀ (tree : ContextNode) (p : List String) (name : String) (n : ContextNode),
        getNode tree p = some n →
        findClickE tree p name = .ok (firstHit (scopeMaps tree p) name)) ∧
    chainPaths ["chrome", "tabs"] = [["chrome", "tabs"], ["chrome"], []] ∧
    findClickE chromeTree ["chrome", "tabs"] "search" = .ok (some searchRec) :=
  ⟨fun tree p name n h => findClickE_eq_firstHit tree p name n h, rfl, rfl⟩

/-- Witness for C2: the general resolution-order equation instantiated at the
concrete chrome tree and current path `/chrome/tabs`. -/
theorem C2_scope_resolution_order_witness :
    findClickE chromeTree ["chrome", "tabs"] "search" =
      .ok (firstHit (scopeMaps chromeTree ["chrome", "tabs"]) "search") :=
  C2_scope_resolution_order.1 chromeTree ["chrome", "tabs"] "search" emptyNode rfl

/-- Claim C3 (corrected): a click defined under `/chrome/devtools` IS visible
when resolving its name from `/chrome/tabs` — the parent `/chrome` is an
ancestor of the current context and `devtools` is one of its direct children,
whose own clicks maps the ancestor scan consults; only clicks defined deeper
(for example under `/chrome/devtools/panel`) are invisible from
`/chrome/tabs`. -/
theorem C3_sibling_visible :
    findClickE siblingTree ["chrome", "tabs"] "target-click" =
      .ok (some devtoolsRec) ∧
    findClickE deepTree ["chrome", "tabs"] "deep-click" = .ok none :=
  ⟨rfl, rfl⟩

/-- Counterexample to C3 as stated: resolving `target-click` (defined only
under `/chrome/devtools`) from `/chrome/tabs` does NOT fail — it returns the
devtools record, contradicting the claimed NotFound. -/
theorem C3_sibling_visible_cex :
    findClickE siblingTree ["chrome", "tabs"] "target-click" ≠ .ok none := by
  rw [show findClickE siblingTree ["chrome", "tabs"] "target-click" =
    .ok (some devtoolsRec) from rfl]
  simp

/-- Claim C4 (corrected): after any sequence of create, move and rename
operations starting from a well-formed store, every clicks map and every
subcontexts map in the store still has pairwise-distinct keys (the store
remains a finite tree of maps), and `move` fails NotFound when the target
path does not resolve to an existing node. However `move` does NOT reject
relocating a context beneath its own subtree: such a move is accepted and
simply deletes the item from its parent, so the whole subtree becomes
unreachable from the root (it is silently lost). -/
theorem C4_registry_tree_invariant :
    (∀ (ops : List RegOp) (t : ContextNode), wf t = true →
        wf (ops.foldl applyOp t) = true) ∧
    (∀ (t : ContextNode) (p : List String) (itemName targetPath : String),
        (hasKey ((getNode (vivify t p) p).getD emptyNode).clicks itemName ||
          hasKey ((getNode (vivify t p) p).getD emptyNode).subcontexts itemName) = true →
        getNode (vivify t p) (parseTarget p targetPath) = none →
        moveItem t p itemName targetPath =
          (vivify t p, some "Target context not found")) ∧
    (∀ (t : ContextNode) (p : List String) (itemName targetPath : String)
        (item : ContextNode),
        lookup ((getNode (vivify t p) p).getD emptyNode).clicks itemName = none →
        lookup ((getNode (vivify t p) p).getD emptyNode).subcontexts itemName = some item →
        (p ++ [itemName]).isPrefixOf (parseTarget p targetPath) = true →
        (getNode (vivify t p) (parseTarget p targetPath)).isSome = true →
        moveItem t p itemName targetPath =
          (updateAt (vivify t p)
            p (fun n => .node n.clicks (delKey n.subcontexts itemName)), none)) := by
  refine ⟨fun ops t h => wf_foldl_applyOp ops t h, ?_, ?_⟩
  · intro t p itemName targetPath hitem htarget
    simp only [moveItem]
    cases hc : lookup ((getNode (vivify t p) p).getD emptyNode).clicks itemName with
    | some click => simp [hc, htarget]
    | none =>
      cases hs : lookup ((getNode (vivify t p) p).getD emptyNode).subcontexts itemName with
      | some item => simp [hc, hs, htarget]
      | none =>
        simp [hasKey, hc, hs] at hitem
  · intro t p itemName targetPath item hc hs hpref hsome
    cases htarget : getNode (vivify t p) (parseTarget p targetPath) with
    | none => rw [htarget] at hsome; cases hsome
    | some tn => simp [moveItem, hc, hs, htarget, hpref]

/-- Witness for C4: the invariant holds across a concrete operation sequence,
a concrete move to a missing target fails NotFound, and a concrete
self-subtree move (moving `/a` into `/a/b`) takes the delete-only branch. -/
theorem C4_registry_tree_invariant_witness :
    wf ([RegOp.mk [] "x", RegOp.mv [] "a" "/a/b",
        RegOp.rn [] "x" "y"].foldl applyOp moveDemoTree) = true ∧
    moveItem moveDemoTree [] "a" "/nope" =
      (vivify moveDemoTree [], some "Target context not found") ∧
    moveItem moveDemoTree [] "a" "/a/b" =
      (updateAt (vivify moveDemoTree []) []
        (fun n => .node n.clicks (delKey n.subcontexts "a")), none) :=
  ⟨C4_registry_tree_invariant.1 _ moveDemoTree rfl,
   C4_registry_tree_invariant.2.1 moveDemoTree [] "a" "/nope" rfl rfl,
   C4_registry_tree_invariant.2.2 moveDemoTree [] "a" "/a/b" (.node [] [("b", emptyNode)])
     rfl rfl rfl rfl⟩

/-- Counterexample to C4 as stated: moving context `a` to `/a/b` — a path
strictly inside the subtree of `a` — is NOT rejected: the operation reports
no error and afterwards the root no longer contains `a` at all (the subtree
is silently dropped rather than the move being refused). -/
theorem C4_registry_tree_invariant_cex :
    parseTarget [] "/a/b" = ["a", "b"] ∧
    (([] ++ ["a"] : List String)).isPrefixOf (parseTarget [] "/a/b") = true ∧
    moveItem moveDemoTree [] "a" "/a/b" = (ContextNode.node [] [], none) :=
  ⟨rfl, rfl, rfl⟩

/-- Claim C5 (corrected): `rename(oldName, newName)` rebinds the entry found
under `oldName` (clicks checked before subcontexts) to `newName` with its
value unchanged — but it performs NO StructuralConflict check: when an entry
named `newName` already exists in the same map it is silently overwritten,
and the operation still reports no error. -/
theorem C5_rename_silent_overwrite :
    (∀ (t : ContextNode) (p : List String) (oldName newName : String) (v : ClickRecord),
        lookup ((getNode (vivify t p) p).getD emptyNode).clicks oldName = some v →
        renameItem t p oldName newName =
          (updateAt (vivify t p) p
            (fun n => .node (delKey (setKey n.clicks newName v) oldName) n.subcontexts),
            none)) ∧
    (∀ (cc : List (String × ClickRecord)) (oldName newName : String) (v : ClickRecord),
        nodupKeys cc = true → oldName ≠ newName →
        lookup (delKey (setKey cc newName v) oldName) newName = some v ∧
        lookup (delKey (setKey cc newName v) oldName) oldName = none) ∧
    (∀ (t : ContextNode) (p : List String) (oldName newName : String) (c : ContextNode),
        lookup ((getNode (vivify t p) p).getD emptyNode).clicks oldName = none →
        lookup ((getNode (vivify t p) p).getD emptyNode).subcontexts oldName = some c →
        renameItem t p oldName newName =
          (updateAt (vivify t p) p
            (fun n => .node n.clicks (delKey (setKey n.subcontexts newName c) oldName)),
            none)) := by
  refine ⟨?_, ?_, ?_⟩
  · intro t p oldName newName v h
    simp [renameItem, h]
  · intro cc oldName newName v hnd hne
    constructor
    · rw [lookup_delKey_ne _ _ _ (Ne.symm hne), lookup_setKey, if_pos rfl]
    · rw [lookup_delKey_self _ _ (nodupKeys_setKey _ _ _ hnd)]
  · intro t p oldName newName c hc hs
    simp [renameItem, hc, hs]

/-- Witness for C5: renaming click `a` to `b` at the root of a store that
already holds a click `b` proceeds without error, and in the resulting
clicks map `b` is bound to the old value of `a` while `a` is gone. -/
theorem C5_rename_silent_overwrite_witness :
    renameItem renameTree [] "a" "b" =
      (updateAt (vivify renameTree []) []
        (fun n => .node (delKey (setKey n.clicks "b" recA) "a") n.subcontexts), none) ∧
    lookup (delKey (setKey renameTree.clicks "b" recA) "a") "b" = some recA ∧
    lookup (delKey (setKey renameTree.clicks "b" recA) "a") "a" = none :=
  ⟨C5_rename_silent_overwrite.1 renameTree [] "a" "b" recA rfl,
   (C5_rename_silent_overwrite.2.1 renameTree.clicks "a" "b" recA rfl (by decide)).1,
   (C5_rename_silent_overwrite.2.1 renameTree.clicks "a" "b" recA rfl (by decide)).2⟩

/-- Counterexample to C5 as stated: the store holds clicks `a` and `b`;
renaming `a` to `b` is claimed to fail StructuralConflict, but the code
reports no error and overwrites `b` with the value of `a`. -/
theorem C5_rename_silent_overwrite_cex :
    lookup renameTree.clicks "b" = some recB ∧
    renameItem renameTree [] "a" "b" = (ContextNode.node [("b", recA)] [], none) :=
  ⟨rfl, rfl⟩

/-- Claim C6 (corrected): creating a context named `n` at the current node
fails StructuralConflict and leaves the store unchanged when a SUBCONTEXT
named `n` already exists there; a CLICK named `n` does not block creation —
`makeContext` checks only the subcontexts map, so in that case an empty
subcontext `n` is added alongside the click. -/
theorem C6_mkcontext_conflict :
    (∀ (t cur : ContextNode) (p : List String) (name : String) (c : ContextNode),
        getNode t p = some cur → name ≠ "" →
        lookup cur.subcontexts name = some c →
        makeContext t p name = (t, some "Context already exists")) ∧
    (∀ (t cur : ContextNode) (p : List String) (name : String),
        getNode t p = some cur → name ≠ "" →
        lookup cur.subcontexts name = none →
        makeContext t p name =
          (updateAt t p (fun n => .node n.clicks (setKey n.subcontexts name emptyNode)),
            none)) := by
  constructor
  · intro t cur p name c hg hn hl
    simp [makeContext, hn, vivify_of_valid p t cur hg, hg, hl]
  · intro t cur p name hg hn hl
    simp [makeContext, hn, vivify_of_valid p t cur hg, hg, hl]

/-- Witness for C6: creating `chrome` at the root of the chrome tree (where
subcontext `chrome` exists) is rejected with the store unchanged; creating
`fresh` succeeds. -/
theorem C6_mkcontext_conflict_witness :
    makeContext chromeTree [] "chrome" = (chromeTree, some "Context already exists") ∧
    makeContext clickTree [] "fresh" =
      (updateAt clickTree [] (fun n => .node n.clicks (setKey n.subcontexts "fresh" emptyNode)),
        none) :=
  ⟨C6_mkcontext_conflict.1 chromeTree chromeTree [] "chrome"
      (.node [("search", searchRec)] [("tabs", emptyNode), ("devtools", emptyNode)])
      rfl (by decide) rfl,
   C6_mkcontext_conflict.2 clickTree clickTree [] "fresh" rfl (by decide) rfl⟩

/-- Counterexample to C6 as stated: the root holds a click named `a`;
creating a context named `a` is claimed to fail StructuralConflict, but the
code reports no error and adds subcontext `a` next to the click. -/
theorem C6_mkcontext_conflict_cex :
    lookup clickTree.clicks "a" = some recA ∧
    makeContext clickTree [] "a" =
      (ContextNode.node [("a", recA)] [("a", emptyNode)], none) :=
  ⟨rfl, rfl⟩

/-- Claim C1 (corrected): for every flow whose step k = `pre.length + 1`
raises a Fatal failure — an unresolved click name, a command-channel timeout,
or a checkpoint mismatch; an explicit executor error response raises nothing
and is ignored — the flow runner executes steps 1..k exactly once each (the
execution trace is precisely `[1, ..., k]`), executes none of the later
steps, writes a failure record for step k as the last record of the run's
log, restores the current context to the value captured at flow entry, and
finishes the run as not-completed with no automatic retry. -/
theorem C1_flow_abort (env : FlowEnv) (fuel : Nat) (name : String) (f : Flow)
    (pre : List Step) (s : Step) (post : List Step) (ctx : List String)
    (hist : List Cmd) (r : RunResult) (msg : String) (failHist : List Cmd)
    (hflow : env.flows name = some f)
    (hsteps : f.steps = pre ++ s :: post)
    (hpre : runSteps (runFlow env fuel) env name ctx pre 1 ctx hist = some r)
    (hcomp : r.completed = true)
    (hfail : execStep (runFlow env fuel) env r.ctx r.hist s =
      some (.error (msg, failHist))) :
    runFlow env (fuel + 1) name ctx hist =
      some ⟨ctx, failHist,
        r.log ++ [⟨pre.length + 1, s, false, some msg, none⟩],
        List.range' 1 (pre.length + 1), false⟩ := by
  have happ := runSteps_append (runFlow env fuel) env name ctx pre (s :: post)
    1 ctx hist r hpre hcomp
  have hstep : runSteps (runFlow env fuel) env name ctx (s :: post)
      (1 + pre.length) r.ctx r.hist =
      some ⟨ctx, failHist, [⟨1 + pre.length, s, false, some msg, none⟩],
        [1 + pre.length], false⟩ := by
    simp [runSteps, hfail]
  rw [hstep] at happ
  dsimp only at happ
  have htr := runSteps_completed_trace (runFlow env fuel) env name ctx pre
    1 ctx hist r hpre hcomp
  simp only [runFlow, hflow, hsteps, happ]
  rw [htr]
  have hrc : List.range' 1 pre.length ++ [1 + pre.length] =
      List.range' 1 (pre.length + 1) := by
    have := @List.range'_concat 1 1 pre.length
    simpa [Nat.add_comm] using this.symm
  rw [hrc, show 1 + pre.length = pre.length + 1 by omega]

/-- Witness for C1: flow `f` = `[key a, click missing, key b]` with an
always-succeeding executor aborts at step 2: step 1 ran once, the log holds a
success record for step 1 and a failure record for step 2, the trace is
`[1, 2]`, the entry context is restored and the run is not completed. -/
theorem C1_flow_abort_witness :
    runFlow envA 1 "f" [] [] =
      some ⟨[], [Cmd.key "a", Cmd.screenshot "f" 1],
        [⟨1, Step.key "a", true, none, none⟩] ++
          [⟨[Step.key "a"].length + 1, Step.click "missing" false, false,
            some "Click not found", none⟩],
        List.range' 1 ([Step.key "a"].length + 1), false⟩ :=
  C1_flow_abort envA 0 "f" ⟨[Step.key "a", Step.click "missing" false, Step.key "b"]⟩
    [Step.key "a"] (Step.click "missing" false) [Step.key "b"] [] []
    ⟨[], [Cmd.key "a", Cmd.screenshot "f" 1], [⟨1, Step.key "a", true, none, none⟩],
      [1], true⟩
    "Click not found" [Cmd.key "a", Cmd.screenshot "f" 1]
    rfl rfl rfl rfl rfl

/-- Counterexample to C1 as stated: the claim lists an executor error
response among the Fatal failures, after which no later step may execute and
a failure record must be written. Here the executor answers every command of
flow `g` with `{success:false, error:"boom"}`, yet both steps execute, both
are logged as successes, and the run completes — the runner never inspects
the `success` field. -/
theorem C1_flow_abort_cex :
    envErr.robot [] (Cmd.key "x") = some ⟨false, none, some "boom"⟩ ∧
    runFlow envErr 1 "g" [] [] =
      some ⟨[], [Cmd.key "x", Cmd.screenshot "g" 1, Cmd.key "y", Cmd.screenshot "g" 2],
        [⟨1, Step.key "x", true, none, none⟩, ⟨2, Step.key "y", true, none, none⟩],
        [1, 2], true⟩ :=
  ⟨rfl, rfl⟩

/-- Claim C7 (corrected): every command sent over the channel is followed by
polling at a fixed interval for at most 100 attempts; when no non-blank
response is observable during the whole window the call reports the distinct
thrown Timeout (`.error ()`, not an ordinary response). However `sendToRobot`
never clears the response file when a new command is sent, so a response that
becomes observable only after the ceiling has elapsed stays pending and IS
silently consumed as the answer to the next command. -/
theorem C7_channel_timeout :
    (∀ (writes : Nat → Option String) (command : String) (t0 : Nat)
        (file : Option String),
        (∀ i, i < 100 → (seenAt writes t0 file i).all (fun c => !hasText c) = true) →
        (sendToRobot writes command t0 file).1 = .error ()) ∧
    sendToRobot lateWrites "second-command" 101 (applyWrite lateWrites 100 none) =
      (.ok "late-response", none) :=
  ⟨fun writes _command t0 file h => pollLoop_timeout writes 100 t0 file h, rfl⟩

/-- Witness for C7: the timeout contract instantiated on the late-writing
executor schedule — the call started at tick 0 observes nothing during its
100 attempts and reports the Timeout error. -/
theorem C7_channel_timeout_witness :
    (sendToRobot lateWrites "first-command" 0 none).1 = .error () :=
  C7_channel_timeout.1 lateWrites "first-command" 0 none (by decide)

/-- Counterexample to C7 as stated: the executor writes the response to the
first command at tick 100, one tick after that call's polling window closed.
The first call reports Timeout — but the next call, sent afterwards, finds
the stale response already present at its first poll and consumes it as the
answer to the second command, contradicting "never silently consumed as the
answer to a later command". -/
theorem C7_channel_timeout_cex :
    sendToRobot lateWrites "first-command" 0 none = (.error (), none) ∧
    sendToRobot lateWrites "second-command" 101 (applyWrite lateWrites 100 none) =
      (.ok "late-response", none) :=
  ⟨rfl, rfl⟩

/-- Claim C8 (corrected): for every checkpoint `copy` action carrying a
NON-EMPTY `expect` string, the clipboard text returned by that same copy call
is compared verbatim (no trimming, case-sensitive) to `expect`, and the
checkpoint succeeds iff the two are exactly equal; an empty `expect` string
is falsy in JS and disables the check entirely. A mismatch makes the
checkpoint step fail exactly like any other Fatal step failure: a failure
record for that step, context restored to flow entry, and no later step
executes. -/
theorem C8_checkpoint_exactness :
    (∀ (env : FlowEnv) (ctx : List String) (hist : List Cmd) (nm e : String)
        (resp : Resp),
        e ≠ "" → env.robot hist Cmd.copy = some resp →
        runCheckpoint env ctx [⟨CPKind.copy, nm, some e⟩] hist =
          .ok (decide (resp.clipboard = some e), hist ++ [Cmd.copy])) ∧
    (∀ (nested : String → List String → List Cmd → Option RunResult) (env : FlowEnv)
        (flowName : String) (flowCtx ctx : List String) (hist : List Cmd)
        (cp : Checkpoint) (failHist : List Cmd) (rest : List Step) (n : Nat),
        runCheckpoint env ctx cp.actions hist = .ok (false, failHist) →
        runSteps nested env flowName flowCtx (Step.checkpoint cp :: rest) n ctx hist =
          some ⟨flowCtx, failHist,
            [⟨n, .checkpoint cp, false, some "Checkpoint failed", none⟩], [n], false⟩) := by
  constructor
  · intro env ctx hist nm e resp he hresp
    simp only [runCheckpoint, hresp]
    by_cases hclip : resp.clipboard = some e
    · simp [hclip, runCheckpoint]
    · simp [hclip, he, runCheckpoint]
  · intro nested env flowName flowCtx ctx hist cp failHist rest n hcp
    simp [runSteps, execStep, hcp]

/-- Witness for C8: with the executor returning clipboard `Foo`, a copy
action expecting `Foo` passes; the general comparison theorem instantiated
at that concrete environment. -/
theorem C8_checkpoint_exactness_witness :
    runCheckpoint cpFooEnv [] [⟨CPKind.copy, "", some "Foo"⟩] [] =
      .ok (true, [Cmd.copy]) := by
  have := C8_checkpoint_exactness.1 cpFooEnv [] [] "" "Foo"
    ⟨true, some "Foo", none⟩ (by decide) rfl
  simpa using this

/-- Counterexample to C8 as stated: a copy action carrying the expect string
`""` succeeds although the captured clipboard (`actual`) is not equal to it —
the truthiness test `action.expect && ...` skips the comparison for an empty
string, so "succeeds iff the two strings are exactly equal" fails. -/
theorem C8_checkpoint_exactness_cex :
    cpAnyEnv.robot [] Cmd.copy = some ⟨true, some "actual", none⟩ ∧
    (some "actual" : Option String) ≠ some "" ∧
    runCheckpoint cpAnyEnv [] [⟨CPKind.copy, "", some ""⟩] [] =
      .ok (true, [Cmd.copy]) :=
  ⟨rfl, by decide, rfl⟩

/-- Claim C9 (corrected): nested flow invocation uses NO explicit interpreter
call stack and NO depth bound — `executeFlow` simply recurses on the host
stack. A flow whose step invokes the flow itself therefore never terminates:
for every nesting budget the interpreter re-enters the nested flow and
exhausts the budget. -/
theorem C9_no_depth_bound :
    ∀ (fuel : Nat) (ctx : List String) (hist : List Cmd),
      runFlow envSelf fuel "self" ctx hist = none :=
  runFlow_self_none

/-- Counterexample to C9 as stated: execution of the self-invoking flow does
NOT terminate — there is no nesting budget under which the run of flow
`self` returns a result. -/
theorem C9_no_depth_bound_cex :
    ¬ ∃ fuel : Nat, runFlow envSelf fuel "self" [] [] ≠ none := by
  rintro ⟨fuel, hf⟩
  exact hf (runFlow_self_none fuel [] [])

/-- Claim C10 (confirmed): a Fatal failure inside a flow invoked by a `flow`
step does not abort the invoking flow. In general, whenever the nested
invocation returns (with any outcome, failed or not), the `flow` step itself
succeeds. Concretely: flow `inner` aborts at its first step (its run is
not-completed and its log holds a failure record), yet flow `outer`, which
invokes it, records the `flow` step as successful, requests its screenshot,
executes its remaining step and completes. -/
theorem C10_nested_failure_not_propagated :
    (∀ (env : FlowEnv) (fuel : Nat) (name : String) (ctx : List String)
        (hist : List Cmd) (r : RunResult),
        runFlow env fuel name ctx hist = some r →
        execStep (runFlow env fuel) env ctx hist (.flow name) =
          some (.ok (r.ctx, r.hist, none))) ∧
    runFlow envNest 5 "inner" [] [] =
      some ⟨[], [],
        [⟨1, Step.click "missing" false, false, some "Click not found", none⟩],
        [1], false⟩ ∧
    runFlow envNest 5 "outer" [] [] =
      some ⟨[], [Cmd.screenshot "outer" 1, Cmd.key "k", Cmd.screenshot "outer" 2],
        [⟨1, Step.flow "inner", true, none, none⟩, ⟨2, Step.key "k", true, none, none⟩],
        [1, 2], true⟩ :=
  ⟨fun env fuel name ctx hist r h => execStep_flow_ok (runFlow env fuel) env ctx hist name r h,
   rfl, rfl⟩

/-- Witness for C10: the never-propagates rule instantiated at the concrete
nested scenario — the `flow inner` step reports success even though the
inner run failed. -/
theorem C10_nested_failure_not_propagated_witness :
    execStep (runFlow envNest 5) envNest [] [] (.flow "inner") =
      some (.ok ([], [], none)) :=
  C10_nested_failure_not_propagated.1 envNest 5 "inner" [] []
    ⟨[], [], [⟨1, Step.click "missing" false, false, some "Click not found", none⟩],
      [1], false⟩ rfl

end Robot
